import Mathlib

set_option maxRecDepth 100000
set_option autoImplicit false

/-!
Verification of the Poly-Mind-MCP indexer core: the `OrderFilled` trade
decoder (`src/trade_decoder.py`), the trade store (`src/indexer/store.py`),
and the batch/continuous scanner (`src/indexer/run.py`).

Raw log topics and payloads are hexadecimal strings without a `0x` prior
part, as produced by `HexBytes.hex()`; we embed them as lists of nibbles
(`Fin 16`).  Decimal-string integer fields of a `Trade` (asset ids,
amounts, fee) are embedded by their numeric value; the computed price is
embedded as the exact string the Python code stores.
-/

/-- A hexadecimal digit. -/
abbrev Nibble := Fin 16

/-- Big-endian value of a hex-digit sequence: `int(hex_str, 16)`. -/
def nibblesToNat (ds : List Nibble) : ℕ :=
  ds.foldl (fun acc d => acc * 16 + d.val) 0

/-- Little-endian hex digits of `n`, `k` of them (helper used to build
concrete test logs; the inverse direction of `nibblesToNat`). -/
def natToNibblesLE : ℕ → ℕ → List Nibble
  | 0, _ => []
  | k + 1, n => (⟨n % 16, Nat.mod_lt _ (by omega)⟩ : Nibble) :: natToNibblesLE k (n / 16)

/-- Big-endian, fixed-width hex encoding of `n` in `k` digits. -/
def natToNibblesBE (k n : ℕ) : List Nibble :=
  (natToNibblesLE k n).reverse

/-- Fuel-driven base-10 logarithm: `log10Aux fuel n` is `⌊log₁₀ n⌋` as long
as `n ≤ fuel` (structural recursion so that the kernel can evaluate it). -/
def log10Aux : ℕ → ℕ → ℕ
  | 0, _ => 0
  | fuel + 1, n => if n < 10 then 0 else log10Aux fuel (n / 10) + 1

/-- `⌊log₁₀ n⌋` for `n ≥ 1` (and `0` at `0`). -/
def log10 (n : ℕ) : ℕ := log10Aux n n

/-!
### Python `decimal.Decimal` arithmetic model

`TradeDecoder._calculate_price` computes with `decimal.Decimal` under the
default context: 28 significant digits, `ROUND_HALF_EVEN`.  We model the
values of that arithmetic over `ℚ`: each division rounds the exact
quotient to 28 significant digits half-to-even; `round(price, 6)`
quantizes half-to-even to 6 decimal places and signals `InvalidOperation`
(trapped by the code, which then returns "0") when the quantized
coefficient would exceed 28 digits.
-/

/-- Round a rational to the nearest integer, ties to even
(`ROUND_HALF_EVEN`). -/
def roundHalfEvenZ (s : ℚ) : ℤ :=
  let f := ⌊s⌋
  let r := s - f
  if r < 1 / 2 then f
  else if 1 / 2 < r then f + 1
  else if f % 2 = 0 then f else f + 1

/-- Decimal adjusted exponent plus one: the unique `e` with
`10 ^ (e - 1) ≤ q < 10 ^ e` for `q > 0`. -/
def decExp (q : ℚ) : ℤ :=
  let a := q.num.natAbs
  let b := q.den
  let e0 : ℤ := (log10 a : ℤ) - (log10 b : ℤ)
  if q < (10 : ℚ) ^ e0 then e0 else e0 + 1

/-- Round a positive rational to 28 significant decimal digits,
half-to-even. -/
def roundSigPos (q : ℚ) : ℚ :=
  let e := decExp q
  let scale := (10 : ℚ) ^ (28 - e)
  ((roundHalfEvenZ (q * scale) : ℚ)) / scale

/-- Rounding of a `Decimal` operation result under the default context
(precision 28, `ROUND_HALF_EVEN`).  Only the value matters for the
operations the code performs. -/
def roundSig28 (q : ℚ) : ℚ :=
  if q = 0 then 0 else if q < 0 then -roundSigPos (-q) else roundSigPos q

/-- `Decimal.quantize(Decimal("1E-6"))` under the default context: the
result's coefficient (`result × 10⁶`), or `none` when `InvalidOperation`
is signalled because that coefficient needs more than 28 digits. -/
def quantize6 (p : ℚ) : Option ℤ :=
  let z := roundHalfEvenZ (p * 10 ^ 6)
  if z.natAbs < 10 ^ 28 then some z else none

/-- `str` of a nonnegative `Decimal` with exponent `-6` and coefficient
`n`: integer part, a dot, then six digits. -/
def decString6 (n : ℕ) : String :=
  let frac := Nat.repr (n % 10 ^ 6)
  Nat.repr (n / 10 ^ 6) ++ "." ++
    (String.mk (List.replicate (6 - frac.length) '0') ++ frac)

/-- `str` of a `Decimal` with exponent `-6` and signed coefficient `z`. -/
def decString6Int (z : ℤ) : String :=
  (if z < 0 then "-" else "") ++ decString6 z.natAbs

/-- `TradeDecoder._calculate_price(usdc_amount, token_amount)`
(src/trade_decoder.py:246-268): `"0"` when the token amount is zero;
otherwise `str(round((usdc_amount / Decimal(10**6)) / token_amount, 6))`,
with the whole computation under the default `Decimal` context and any
exception (in particular `InvalidOperation` from `round`) caught,
yielding `"0"`. -/
def calculate_price (usdc_amount token_amount : ℕ) : String :=
  if token_amount = 0 then "0"
  else
    let usdc := roundSig28 ((usdc_amount : ℚ) / 10 ^ 6)
    let price := roundSig28 (usdc / (token_amount : ℚ))
    match quantize6 price with
    | some z => decString6Int z
    | none => "0"

/-- Specification-side definition (follows the spec's words, for
comparison with `calculate_price`): "the decimal value
`(collateral amount / 10^6) / token amount` rounded to 6 decimal
places", written with six decimal digits. -/
def specRound6 (q : ℚ) : String :=
  decString6Int (roundHalfEvenZ (q * 10 ^ 6))

/-!
### Trade decoder (src/trade_decoder.py)
-/

/-- `Trade` (src/trade_decoder.py:24-40).  Hex-string fields keep their
nibbles; the decimal-string integer fields are embedded by value. -/
structure Trade where
  tx_hash : String
  log_index : ℕ
  exchange : List Nibble
  order_hash : List Nibble
  maker : List Nibble
  taker : List Nibble
  maker_asset_id : ℕ
  taker_asset_id : ℕ
  maker_amount : ℕ
  taker_amount : ℕ
  fee : ℕ
  price : String
  token_id : ℕ
  side : String
  deriving Repr, DecidableEq

/-- One raw event log as the decoder reads it: `log['address']`,
`log['topics']`, `log['data']`, each as `HexBytes` hex digits. -/
structure RawLog where
  address : List Nibble
  topics : List (List Nibble)
  data : List Nibble
  deriving Repr, DecidableEq

/-- `TradeDecoder.ORDER_FILLED_TOPIC`: the keccak-256 hash of
`OrderFilled(bytes32,address,address,uint256,uint256,uint256,uint256,uint256)`,
whose value the source hard-codes at src/indexer/run.py:49. -/
def ORDER_FILLED_TOPIC : List Nibble :=
  natToNibblesBE 64
    0xd0a08e8c493f9c94f29311604c9de1b4e8c8d4c06bd0c789af57f2d65bfec0f6

/-- The eight hex digits `d0a08e8c` that
`TradeDecoder._parse_order_filled_log` actually compares `topics[0]`
against (`topic0.startswith('d0a08e8c')`, src/trade_decoder.py:145). -/
def ORDER_FILLED_SIG_HEAD : List Nibble := natToNibblesBE 8 0xd0a08e8c

/-- `TradeDecoder._parse_order_filled_log(tx_hash, log_index, log)`
(src/trade_decoder.py:115-227).  Checks mirror the source in order:
`to_checksum_address(log['address'])` raising (caught → `None`) unless
the address is 20 bytes; topic count `< 4` → `None`; `topics[0]` must
start with `d0a08e8c`; `to_checksum_address` of the low 20 bytes of
`topics[2]`/`topics[3]`; payload shorter than 320 hex digits → `None`;
then the five 32-byte big-endian words and the side/price branch. -/
def parse_order_filled_log (tx_hash : String) (log_index : ℕ)
    (log : RawLog) : Option Trade :=
  if log.address.length ≠ 40 then none
  else
    match log.topics with
    | t0 :: t1 :: t2 :: t3 :: _ =>
      if t0.take 8 ≠ ORDER_FILLED_SIG_HEAD then none
      else if t2.length < 40 then none
      else if t3.length < 40 then none
      else if log.data.length < 320 then none
      else
        let maker := t2.drop (t2.length - 40)
        let taker := t3.drop (t3.length - 40)
        let maker_asset_id := nibblesToNat (log.data.take 64)
        let taker_asset_id := nibblesToNat ((log.data.drop 64).take 64)
        let maker_amount := nibblesToNat ((log.data.drop 128).take 64)
        let taker_amount := nibblesToNat ((log.data.drop 192).take 64)
        let fee := nibblesToNat ((log.data.drop 256).take 64)
        if maker_asset_id = 0 then
          some { tx_hash := tx_hash, log_index := log_index,
                 exchange := log.address, order_hash := t1,
                 maker := maker, taker := taker,
                 maker_asset_id := maker_asset_id,
                 taker_asset_id := taker_asset_id,
                 maker_amount := maker_amount,
                 taker_amount := taker_amount, fee := fee,
                 price := calculate_price maker_amount taker_amount,
                 token_id := taker_asset_id, side := "BUY" }
        else if taker_asset_id = 0 then
          some { tx_hash := tx_hash, log_index := log_index,
                 exchange := log.address, order_hash := t1,
                 maker := maker, taker := taker,
                 maker_asset_id := maker_asset_id,
                 taker_asset_id := taker_asset_id,
                 maker_amount := maker_amount,
                 taker_amount := taker_amount, fee := fee,
                 price := calculate_price taker_amount maker_amount,
                 token_id := maker_asset_id, side := "SELL" }
        else none
    | _ => none

/-!
### Trade store (src/indexer/store.py) and schema (src/db/schema.py)
-/

/-- A row of the `trades` table as `insert_trades` writes it
(src/indexer/store.py:297-326).  The schema (src/db/schema.py:49-73)
declares `UNIQUE(tx_hash, log_index)`; `INSERT OR IGNORE` therefore
skips a row whose `(tx_hash, log_index)` already exists. -/
structure TradeRow where
  market_id : Option ℕ
  tx_hash : String
  log_index : ℕ
  block_number : ℕ
  maker : List Nibble
  taker : List Nibble
  maker_asset_id : ℕ
  taker_asset_id : ℕ
  maker_amount : ℕ
  taker_amount : ℕ
  fee : ℕ
  side : String
  outcome : Option String
  price : String
  size : Option String
  token_id : ℕ
  exchange : List Nibble
  order_hash : List Nibble
  timestamp : String
  market_slug : Option String
  condition_id : Option String
  deriving Repr, DecidableEq

/-- Does the table already hold a row with this row's
`(tx_hash, log_index)` identity key? -/
def hasTradeKey (db : List TradeRow) (t : TradeRow) : Bool :=
  db.any fun r => r.tx_hash == t.tx_hash && r.log_index == t.log_index

/-- One `INSERT OR IGNORE INTO trades` statement: appends the row unless
its identity key is present, and reports `cursor.rowcount > 0`. -/
def insertOrIgnoreTrade (db : List TradeRow) (t : TradeRow) :
    List TradeRow × ℕ :=
  if hasTradeKey db t then (db, 0) else (db ++ [t], 1)

/-- `DataStore.insert_trades(trades)` (src/indexer/store.py:276-347):
inserts each row with `INSERT OR IGNORE`, counting only the rows whose
`rowcount` was positive; duplicates are skipped silently. -/
def insert_trades (db : List TradeRow) (trades : List TradeRow) :
    List TradeRow × ℕ :=
  trades.foldl
    (fun acc t =>
      let step := insertOrIgnoreTrade acc.1 t
      (step.1, acc.2 + step.2))
    (db, 0)

/-- A row of the `sync_state` table (src/db/schema.py:76-81): `key` is
the primary key, `last_block` and `total_trades` default to `0`. -/
structure SyncRow where
  key : String
  last_block : ℕ
  total_trades : ℕ
  updated_at : String
  deriving Repr, DecidableEq

/-- `DataStore.get_sync_state(key)` (src/indexer/store.py:489-501):
the stored row, or `{key, last_block: 0, total_trades: 0}` when absent. -/
def get_sync_state (tbl : List SyncRow) (key : String) : SyncRow :=
  (tbl.find? (fun r => r.key == key)).getD
    { key := key, last_block := 0, total_trades := 0, updated_at := "" }

/-- `DataStore.update_sync_state(last_block, total_trades, key)`
(src/indexer/store.py:503-539): an upsert on `key`.  With
`total_trades=None` the `ON CONFLICT` clause updates only `last_block`
and `updated_at`; with a value it updates `total_trades` too.  A fresh
key inserts a row (`total_trades` falling back to its column default
`0`).  `now` stands for `datetime.now().isoformat()`.
`applySyncUpdate` is the per-row effect of the `ON CONFLICT(key) DO
UPDATE` clause. -/
def applySyncUpdate (last_block : ℕ) (total_trades : Option ℕ)
    (key now : String) (r : SyncRow) : SyncRow :=
  if r.key == key then
    match total_trades with
    | some tt =>
      { r with last_block := last_block, total_trades := tt,
               updated_at := now }
    | none => { r with last_block := last_block, updated_at := now }
  else r

def update_sync_state (tbl : List SyncRow) (last_block : ℕ)
    (total_trades : Option ℕ) (key : String) (now : String) :
    List SyncRow :=
  if tbl.any (fun r => r.key == key) then
    tbl.map (applySyncUpdate last_block total_trades key now)
  else
    tbl ++ [{ key := key, last_block := last_block,
              total_trades := total_trades.getD 0, updated_at := now }]

/-- A row of the `markets` table, restricted to the columns
`get_token_to_market_mapping` reads (src/indexer/store.py:626-630). -/
structure MarketRow where
  slug : Option String
  condition_id : String
  yes_token_id : Option ℕ
  no_token_id : Option ℕ
  deriving Repr, DecidableEq

/-- The `(token, market info)` entries built by
`DataStore.get_token_to_market_mapping` (src/indexer/store.py:615-652),
in iteration order: for each market, its YES token then its NO token. -/
def tokenToMarketEntries (ms : List MarketRow) :
    List (ℕ × Option String × String × String) :=
  ms.flatMap fun m =>
    (match m.yes_token_id with
     | some y => [(y, m.slug, m.condition_id, "YES")]
     | none => []) ++
    (match m.no_token_id with
     | some n => [(n, m.slug, m.condition_id, "NO")]
     | none => [])

/-- Lookup in the Python dict built from those entries: a later entry for
the same token overwrites an earlier one, so the last match wins. -/
def tokenToMarketLookup (ms : List MarketRow) (tid : ℕ) :
    Option (Option String × String × String) :=
  ((tokenToMarketEntries ms).reverse.find? (fun e => e.1 == tid)).map
    (fun e => e.2)

/-!
### Batch scanner / continuous poller (src/indexer/run.py)
-/

/-- `PolymarketIndexer.BATCH_SIZE` (src/indexer/run.py:53). -/
def BATCH_SIZE : ℕ := 50

/-- One log as returned by `eth_getLogs`, with the fields
`parse_log_to_trade` reads besides the raw log itself. -/
structure LogEntry where
  transactionHash : String
  logIndex : ℕ
  blockNumber : ℕ
  raw : RawLog

/-- The scanner's environment: the remote chain endpoint and the
database's failure behaviour.  `fetch f t` is the `eth_get_logs` call for
`[f, t]` (`.error` = the RPC raised); `storeOk f t` tells whether the
`insert_trades` transaction for that range commits (`false` = the commit
raises, `insert_trades` rolls back and returns `0`); `now` stands for
`datetime.now().isoformat()`. -/
structure Env where
  fetch : ℕ → ℕ → Except Unit (List LogEntry)
  storeOk : ℕ → ℕ → Bool
  now : String

/-- The mutable stores behind one `PolymarketIndexer`: the `trades`,
`markets` and `sync_state` tables. -/
structure IndexerState where
  trades : List TradeRow
  markets : List MarketRow
  sync : List SyncRow

/-- `PolymarketIndexer.fetch_order_filled_logs(from_block, to_block)`
(src/indexer/run.py:107-134): returns the logs, but catches every
exception from the RPC call and returns the empty list in that case. -/
def fetch_order_filled_logs (env : Env) (from_block to_block : ℕ) :
    List LogEntry :=
  match env.fetch from_block to_block with
  | .ok logs => logs
  | .error _ => []

/-- `PolymarketIndexer.parse_log_to_trade(log)`
(src/indexer/run.py:136-164): decode one fetched log into
`(Trade, block_number)` via `TradeDecoder._parse_order_filled_log`. -/
def parse_log_to_trade (e : LogEntry) : Option (Trade × ℕ) :=
  (parse_order_filled_log e.transactionHash e.logIndex e.raw).map
    (fun tr => (tr, e.blockNumber))

/-- `PolymarketIndexer.process_logs_batch(logs)`
(src/indexer/run.py:166-183): keep the logs that decode. -/
def process_logs_batch (logs : List LogEntry) : List (Trade × ℕ) :=
  logs.filterMap parse_log_to_trade

/-- `PolymarketIndexer.enrich_trades_with_market(trades)`
(src/indexer/run.py:185-231): turn each decoded trade into the dict
handed to `insert_trades`, attaching `(market_slug, condition_id,
outcome)` from the token→market index when the token is known.  The
`timestamp` column default applied inside `insert_trades`
(`datetime.now()`) is filled in here as `now`. -/
def enrich_trades_with_market (markets : List MarketRow)
    (trades : List (Trade × ℕ)) (now : String) : List TradeRow :=
  trades.map fun te =>
    let tr := te.1
    let base : TradeRow :=
      { market_id := none, tx_hash := tr.tx_hash,
        log_index := tr.log_index, block_number := te.2,
        maker := tr.maker, taker := tr.taker,
        maker_asset_id := tr.maker_asset_id,
        taker_asset_id := tr.taker_asset_id,
        maker_amount := tr.maker_amount,
        taker_amount := tr.taker_amount, fee := tr.fee,
        side := tr.side, outcome := none, price := tr.price,
        size := none, token_id := tr.token_id,
        exchange := tr.exchange, order_hash := tr.order_hash,
        timestamp := now, market_slug := none, condition_id := none }
    match tokenToMarketLookup markets tr.token_id with
    | some info =>
      { base with market_slug := info.1, condition_id := some info.2.1,
                  outcome := some info.2.2 }
    | none => base

/-- `PolymarketIndexer.run_batch(from_block, to_block)`
(src/indexer/run.py:324-364): FETCH (exceptions swallowed into `[]`),
DECODE, ENRICH, STORE.  Returns the new state and
`result['trades_stored']`. -/
def run_batch (env : Env) (s : IndexerState) (from_block to_block : ℕ) :
    IndexerState × ℕ :=
  let logs := fetch_order_filled_logs env from_block to_block
  if logs.isEmpty then (s, 0)
  else
    let tuples := process_logs_batch logs
    if tuples.isEmpty then (s, 0)
    else
      let dicts := enrich_trades_with_market s.markets tuples env.now
      let stored :=
        if env.storeOk from_block to_block then insert_trades s.trades dicts
        else (s.trades, 0)
      ({ s with trades := stored.1 }, stored.2)

/-- The batch loop of `PolymarketIndexer.run_indexer`
(src/indexer/run.py:416-450), fuel-driven so the kernel can evaluate it
(`to_block + 1 - batch_start` bounds the iteration count).  Each
iteration processes `[batch_start, min(batch_start + BATCH_SIZE - 1,
to_block)]`, adds the stored count to the running total, writes the sync
cursor via `update_sync_state(batch_end, total)` and continues at
`batch_end + 1`.  Returns the final state, the final running total and
the list of ranges handed to `run_batch`. -/
def catchupAux : ℕ → Env → IndexerState → ℕ → ℕ → ℕ →
    IndexerState × ℕ × List (ℕ × ℕ)
  | 0, _, s, total, _, _ => (s, total, [])
  | fuel + 1, env, s, total, batch_start, to_block =>
    if batch_start ≤ to_block then
      let batch_end := min (batch_start + (BATCH_SIZE - 1)) to_block
      let step := run_batch env s batch_start batch_end
      let total1 := total + step.2
      let s2 : IndexerState :=
        { step.1 with
          sync := update_sync_state step.1.sync batch_end (some total1)
                    "indexer" env.now }
      let rest := catchupAux fuel env s2 total1 (batch_end + 1) to_block
      (rest.1, rest.2.1, (batch_start, batch_end) :: rest.2.2)
    else (s, total, [])

/-- The batch loop of `run_indexer` over `[from_block, to_block]`. -/
def catchupLoop (env : Env) (s : IndexerState) (total from_block to_block : ℕ) :
    IndexerState × ℕ × List (ℕ × ℕ) :=
  catchupAux (to_block + 1 - from_block) env s total from_block to_block

/-- The resolution of the starting block in `run_indexer`
(src/indexer/run.py:394-396): a caller-supplied `from_block` wins;
otherwise the persisted cursor `sync_state['last_block']` is used
(`get_sync_state` always populates that key, so the `current_block -
1000` fallback of `.get` is dead). -/
def resolveFromBlock (from_arg : Option ℕ) (tbl : List SyncRow) : ℕ :=
  match from_arg with
  | some fb => fb
  | none => (get_sync_state tbl "indexer").last_block

/-- One iteration of the continuous-listening loop of `run_indexer`
(src/indexer/run.py:467-487), after its `time.sleep`: reads the chain
height `latest`; if it is above `last_processed_block`, runs ONE
`run_batch(last_processed_block + 1, latest)` over the whole gap,
updates the cursor to `latest` and remembers `latest`; otherwise does
nothing.  Returns the state, the running total, the new
`last_processed_block` and the ranges handed to `run_batch`. -/
def liveIteration (env : Env) (s : IndexerState) (total last_processed latest : ℕ) :
    IndexerState × ℕ × ℕ × List (ℕ × ℕ) :=
  if last_processed < latest then
    let new_from := last_processed + 1
    let step := run_batch env s new_from latest
    let total1 := total + step.2
    let s2 : IndexerState :=
      { step.1 with
        sync := update_sync_state step.1.sync latest (some total1)
                  "indexer" env.now }
    (s2, total1, latest, [(new_from, latest)])
  else (s, total, last_processed, [])

/-!
### Concrete fixtures used by witnesses and counterexamples
-/

/-- Build a well-formed `OrderFilled` log carrying the full event topic
and the five given 32-byte payload words. -/
def mkTestLog (mA tA mAmt tAmt fee : ℕ) : RawLog :=
  { address := natToNibblesBE 40 0x4bFb41d5B3570DeFd03C39a9A4D8dE6Bd8B8982E,
    topics := [ORDER_FILLED_TOPIC, natToNibblesBE 64 1,
               natToNibblesBE 64 2, natToNibblesBE 64 3],
    data := natToNibblesBE 64 mA ++ natToNibblesBE 64 tA ++
            natToNibblesBE 64 mAmt ++ natToNibblesBE 64 tAmt ++
            natToNibblesBE 64 fee }

/-- A log whose `topics[0]` begins with `d0a08e8c` but differs from the
full `OrderFilled` keccak hash in every later position. -/
def wrongHashLog : RawLog :=
  { mkTestLog 0 77 500000 1 0 with
    topics := [ORDER_FILLED_SIG_HEAD ++ natToNibblesBE 56 0,
               natToNibblesBE 64 1, natToNibblesBE 64 2,
               natToNibblesBE 64 3] }

/-- An environment whose log fetch always raises. -/
def envFetchErr : Env :=
  { fetch := fun _ _ => .error (), storeOk := fun _ _ => true, now := "t" }

/-- An environment where fetching `[100, 149]` yields one decodable
`OrderFilled` log but every store commit fails. -/
def envStoreErr : Env :=
  { fetch := fun f _ =>
      if f == 100 then
        .ok [{ transactionHash := "0xaa", logIndex := 3, blockNumber := 120,
               raw := mkTestLog 0 77 500000 1 0 }]
      else .ok [],
    storeOk := fun _ _ => false, now := "t" }

/-- A starting state whose persisted cursor is block 99. -/
def state99 : IndexerState :=
  { trades := [], markets := [],
    sync := [{ key := "indexer", last_block := 99, total_trades := 0,
               updated_at := "t0" }] }

/-- A concrete trade row used by store witnesses. -/
def c2RowA : TradeRow :=
  { market_id := none, tx_hash := "0xa", log_index := 0, block_number := 7,
    maker := [], taker := [], maker_asset_id := 0, taker_asset_id := 9,
    maker_amount := 10, taker_amount := 20, fee := 0, side := "BUY",
    outcome := none, price := "0.500000", size := none, token_id := 9,
    exchange := [], order_hash := [], timestamp := "t",
    market_slug := none, condition_id := none }

/-- A second trade row, same transaction, next log position. -/
def c2RowB : TradeRow := { c2RowA with log_index := 1, side := "SELL" }

/-- A starting state whose persisted cursor is block 100. -/
def state100 : IndexerState :=
  { trades := [], markets := [],
    sync := [{ key := "indexer", last_block := 100, total_trades := 5,
               updated_at := "t0" }] }

/-!
## Helper lemmas
-/

theorem log10Aux_spec (fuel n : ℕ) (hn : 1 ≤ n) (hfuel : n ≤ fuel) :
    10 ^ log10Aux fuel n ≤ n ∧ n < 10 ^ (log10Aux fuel n + 1) := by
  induction fuel generalizing n with
  | zero => omega
  | succ fuel ih =>
    by_cases h : n < 10
    · simp only [log10Aux, if_pos h]
      constructor
      · simpa using hn
      · simpa using h
    · simp only [log10Aux, if_neg h]
      obtain ⟨h1, h2⟩ := ih (n / 10) (by omega) (by omega)
      constructor
      · calc 10 ^ (log10Aux fuel (n / 10) + 1)
            = 10 ^ log10Aux fuel (n / 10) * 10 := by ring
          _ ≤ (n / 10) * 10 := Nat.mul_le_mul_right 10 h1
          _ ≤ n := by omega
      · calc n < (n / 10 + 1) * 10 := by omega
          _ ≤ 10 ^ (log10Aux fuel (n / 10) + 1) * 10 :=
              Nat.mul_le_mul_right 10 h2
          _ = 10 ^ (log10Aux fuel (n / 10) + 1 + 1) := by ring

theorem log10_spec (n : ℕ) (hn : 1 ≤ n) :
    10 ^ log10 n ≤ n ∧ n < 10 ^ (log10 n + 1) :=
  log10Aux_spec n n hn le_rfl

/-- On a structurally valid log, `_parse_order_filled_log` reaches the
side/price branch. -/
theorem parse_valid (txh : String) (li : ℕ) (L : RawLog)
    (t0 t1 t2 t3 : List Nibble) (rest : List (List Nibble))
    (htop : L.topics = t0 :: t1 :: t2 :: t3 :: rest)
    (haddr : L.address.length = 40)
    (hsig : t0.take 8 = ORDER_FILLED_SIG_HEAD)
    (h2 : 40 ≤ t2.length) (h3 : 40 ≤ t3.length)
    (hdata : 320 ≤ L.data.length) :
    parse_order_filled_log txh li L =
      (if nibblesToNat (L.data.take 64) = 0 then
        some { tx_hash := txh, log_index := li,
               exchange := L.address, order_hash := t1,
               maker := t2.drop (t2.length - 40),
               taker := t3.drop (t3.length - 40),
               maker_asset_id := nibblesToNat (L.data.take 64),
               taker_asset_id := nibblesToNat ((L.data.drop 64).take 64),
               maker_amount := nibblesToNat ((L.data.drop 128).take 64),
               taker_amount := nibblesToNat ((L.data.drop 192).take 64),
               fee := nibblesToNat ((L.data.drop 256).take 64),
               price := calculate_price
                 (nibblesToNat ((L.data.drop 128).take 64))
                 (nibblesToNat ((L.data.drop 192).take 64)),
               token_id := nibblesToNat ((L.data.drop 64).take 64),
               side := "BUY" }
      else if nibblesToNat ((L.data.drop 64).take 64) = 0 then
        some { tx_hash := txh, log_index := li,
               exchange := L.address, order_hash := t1,
               maker := t2.drop (t2.length - 40),
               taker := t3.drop (t3.length - 40),
               maker_asset_id := nibblesToNat (L.data.take 64),
               taker_asset_id := nibblesToNat ((L.data.drop 64).take 64),
               maker_amount := nibblesToNat ((L.data.drop 128).take 64),
               taker_amount := nibblesToNat ((L.data.drop 192).take 64),
               fee := nibblesToNat ((L.data.drop 256).take 64),
               price := calculate_price
                 (nibblesToNat ((L.data.drop 192).take 64))
                 (nibblesToNat ((L.data.drop 128).take 64)),
               token_id := nibblesToNat (L.data.take 64),
               side := "SELL" }
      else none) := by
  unfold parse_order_filled_log
  rw [htop]
  simp only [haddr, hsig, ne_eq, not_true_eq_false, if_false,
    Nat.not_lt.mpr h2, Nat.not_lt.mpr h3, Nat.not_lt.mpr hdata,
    not_false_eq_true, if_true]

theorem calculate_price_zero_denom (m : ℕ) : calculate_price m 0 = "0" := by
  simp [calculate_price]

/-- C4 (amended): the decoder produces a Trade exactly when at least one
of `makerAssetId`/`takerAssetId` is zero: a log where neither is zero is
rejected; `makerAssetId == 0` (even when `takerAssetId == 0` as well)
yields a BUY on `takerAssetId`; `makerAssetId ≠ 0` with
`takerAssetId == 0` yields a SELL on `makerAssetId`. -/
theorem c4_trade_iff_collateral_leg (txh : String) (li : ℕ) (L : RawLog)
    (t0 t1 t2 t3 : List Nibble) (rest : List (List Nibble))
    (htop : L.topics = t0 :: t1 :: t2 :: t3 :: rest)
    (haddr : L.address.length = 40)
    (hsig : t0.take 8 = ORDER_FILLED_SIG_HEAD)
    (h2 : 40 ≤ t2.length) (h3 : 40 ≤ t3.length)
    (hdata : 320 ≤ L.data.length) :
    (nibblesToNat (L.data.take 64) ≠ 0 →
      nibblesToNat ((L.data.drop 64).take 64) ≠ 0 →
      parse_order_filled_log txh li L = none)
    ∧ (nibblesToNat (L.data.take 64) = 0 →
      ∃ tr, parse_order_filled_log txh li L = some tr ∧
        tr.side = "BUY" ∧
        tr.token_id = nibblesToNat ((L.data.drop 64).take 64))
    ∧ (nibblesToNat (L.data.take 64) ≠ 0 →
      nibblesToNat ((L.data.drop 64).take 64) = 0 →
      ∃ tr, parse_order_filled_log txh li L = some tr ∧
        tr.side = "SELL" ∧
        tr.token_id = nibblesToNat (L.data.take 64)) := by
  rw [parse_valid txh li L t0 t1 t2 t3 rest htop haddr hsig h2 h3 hdata]
  refine ⟨fun hm ht => ?_, fun hm => ?_, fun hm ht => ?_⟩
  · rw [if_neg hm, if_neg ht]
  · rw [if_pos hm]
    exact ⟨_, rfl, rfl, rfl⟩
  · rw [if_neg hm, if_pos ht]
    exact ⟨_, rfl, rfl, rfl⟩

/-- C4 witness: a log whose maker leg is the zero (collateral) asset and
whose taker leg is not decodes to a BUY on the taker asset; a log where
neither leg is zero is rejected. -/
theorem c4_witness :
    (∃ tr, parse_order_filled_log "0xw4" 0 (mkTestLog 0 77 500000 1 0) = some tr ∧
      tr.side = "BUY" ∧ tr.token_id = 77) ∧
    parse_order_filled_log "0xw4" 0 (mkTestLog 5 7 1 1 0) = none := by
  constructor
  · exact (c4_trade_iff_collateral_leg "0xw4" 0 (mkTestLog 0 77 500000 1 0)
      ORDER_FILLED_TOPIC (natToNibblesBE 64 1) (natToNibblesBE 64 2)
      (natToNibblesBE 64 3) [] rfl (by decide) (by decide) (by decide)
      (by decide) (by decide)).2.1 (by decide)
  · exact (c4_trade_iff_collateral_leg "0xw4" 0 (mkTestLog 5 7 1 1 0)
      ORDER_FILLED_TOPIC (natToNibblesBE 64 1) (natToNibblesBE 64 2)
      (natToNibblesBE 64 3) [] rfl (by decide) (by decide) (by decide)
      (by decide) (by decide)).1 (by decide) (by decide)

/-- C4 counterexample: a log in which BOTH `makerAssetId` and
`takerAssetId` are zero is NOT rejected — the decoder produces a BUY
trade on token id 0 — contradicting the claim that a both-zero log
yields no Trade. -/
theorem c4_counterexample :
    (parse_order_filled_log "0xtx" 0 (mkTestLog 0 0 1 1 0)).map
      (fun tr => (tr.side, tr.maker_asset_id, tr.taker_asset_id, tr.token_id))
      = some ("BUY", 0, 0, 0) := by
  decide

/-- C5 (amended): the decoder validates totally — every log with fewer
than 4 topics is rejected, every log whose `topics[0]` does not START
WITH the first four bytes `d0a08e8c` of the `OrderFilled` signature hash
is rejected (the full 32-byte hash is NOT compared), and every log whose
payload is shorter than 160 bytes (320 hex digits) is rejected; each
rejection is the value `none`, never an escaping exception. -/
theorem c5_validation :
    (∀ (txh : String) (li : ℕ) (L : RawLog), L.topics.length < 4 →
      parse_order_filled_log txh li L = none)
    ∧ (∀ (txh : String) (li : ℕ) (L : RawLog) (t0 : List Nibble)
        (ts : List (List Nibble)), L.topics = t0 :: ts →
      t0.take 8 ≠ ORDER_FILLED_SIG_HEAD →
      parse_order_filled_log txh li L = none)
    ∧ (∀ (txh : String) (li : ℕ) (L : RawLog), L.data.length < 320 →
      parse_order_filled_log txh li L = none) := by
  refine ⟨fun txh li L h => ?_, fun txh li L t0 ts hT hsig => ?_,
    fun txh li L h => ?_⟩
  · unfold parse_order_filled_log
    split
    · rfl
    rcases hT : L.topics with _ | ⟨a, _ | ⟨b, _ | ⟨c, _ | ⟨d, tl⟩⟩⟩⟩
    · rfl
    · rfl
    · rfl
    · rfl
    · rw [hT] at h
      simp only [List.length_cons] at h
      omega
  · unfold parse_order_filled_log
    split
    · rfl
    rw [hT]
    rcases ts with _ | ⟨b, _ | ⟨c, _ | ⟨d, tl⟩⟩⟩
    · rfl
    · rfl
    · rfl
    · simp only [if_pos hsig]
  · unfold parse_order_filled_log
    split
    · rfl
    rcases hT : L.topics with _ | ⟨a, _ | ⟨b, _ | ⟨c, _ | ⟨d, tl⟩⟩⟩⟩
    · rfl
    · rfl
    · rfl
    · rfl
    · simp only [if_pos h, ite_self]

/-- C5 witness: a log with exactly 3 topics is rejected; a log whose
`topics[0]` does not begin with `d0a08e8c` is rejected; a log with a
152-byte payload is rejected. -/
theorem c5_witness :
    parse_order_filled_log "0xw5" 0
      { mkTestLog 0 77 1 1 0 with
        topics := [ORDER_FILLED_TOPIC, natToNibblesBE 64 1,
                   natToNibblesBE 64 2] } = none ∧
    parse_order_filled_log "0xw5" 0
      { mkTestLog 0 77 1 1 0 with
        topics := [natToNibblesBE 64 5, natToNibblesBE 64 1,
                   natToNibblesBE 64 2, natToNibblesBE 64 3] } = none ∧
    parse_order_filled_log "0xw5" 0
      { mkTestLog 0 77 1 1 0 with data := natToNibblesBE 304 0 } = none := by
  refine ⟨?_, ?_, ?_⟩
  · exact c5_validation.1 "0xw5" 0 _ (by decide)
  · exact c5_validation.2.1 "0xw5" 0 _ (natToNibblesBE 64 5)
      [natToNibblesBE 64 1, natToNibblesBE 64 2, natToNibblesBE 64 3]
      rfl (by decide)
  · exact c5_validation.2.2 "0xw5" 0 _ (by decide)

/-- C5 counterexample: a log whose `topics[0]` begins with `d0a08e8c`
but is NOT the 32-byte keccak hash of the `OrderFilled` signature is
accepted and decoded into a Trade — contradicting the claim that every
log whose `topics[0]` differs from the precomputed hash is rejected. -/
theorem c5_counterexample :
    (parse_order_filled_log "0xtx" 0 wrongHashLog).map Trade.side
        = some "BUY" ∧
    wrongHashLog.topics.head? =
        some (ORDER_FILLED_SIG_HEAD ++ natToNibblesBE 56 0) ∧
    ORDER_FILLED_SIG_HEAD ++ natToNibblesBE 56 0 ≠ ORDER_FILLED_TOPIC := by
  refine ⟨by decide, by decide, by decide⟩

/-- C6 (amended): an otherwise-valid `OrderFilled` log whose priced-leg
denominator is zero (`takerAmount` for a BUY, `makerAmount` for a SELL)
is NOT rejected: the decoder produces a Trade whose price is the
sentinel string "0" — `_calculate_price` guards the zero denominator and
never produces an infinity/NaN. -/
theorem c6_zero_denominator_price (txh : String) (li : ℕ) (L : RawLog)
    (t0 t1 t2 t3 : List Nibble) (rest : List (List Nibble))
    (htop : L.topics = t0 :: t1 :: t2 :: t3 :: rest)
    (haddr : L.address.length = 40)
    (hsig : t0.take 8 = ORDER_FILLED_SIG_HEAD)
    (h2 : 40 ≤ t2.length) (h3 : 40 ≤ t3.length)
    (hdata : 320 ≤ L.data.length) :
    (nibblesToNat (L.data.take 64) = 0 →
      nibblesToNat ((L.data.drop 192).take 64) = 0 →
      ∃ tr, parse_order_filled_log txh li L = some tr ∧
        tr.side = "BUY" ∧ tr.price = "0")
    ∧ (nibblesToNat (L.data.take 64) ≠ 0 →
      nibblesToNat ((L.data.drop 64).take 64) = 0 →
      nibblesToNat ((L.data.drop 128).take 64) = 0 →
      ∃ tr, parse_order_filled_log txh li L = some tr ∧
        tr.side = "SELL" ∧ tr.price = "0") := by
  rw [parse_valid txh li L t0 t1 t2 t3 rest htop haddr hsig h2 h3 hdata]
  constructor
  · intro hm ht
    rw [if_pos hm]
    exact ⟨_, rfl, rfl, by simp only [ht, calculate_price_zero_denom]⟩
  · intro hm hta hmamt
    rw [if_neg hm, if_pos hta]
    exact ⟨_, rfl, rfl, by simp only [hmamt, calculate_price_zero_denom]⟩

/-- C6 witness: a valid BUY log with `takerAmount = 0` yields a Trade
priced "0". -/
theorem c6_witness :
    ∃ tr, parse_order_filled_log "0xw6" 0 (mkTestLog 0 77 500000 0 0)
        = some tr ∧ tr.side = "BUY" ∧ tr.price = "0" :=
  (c6_zero_denominator_price "0xw6" 0 (mkTestLog 0 77 500000 0 0)
    ORDER_FILLED_TOPIC (natToNibblesBE 64 1) (natToNibblesBE 64 2)
    (natToNibblesBE 64 3) [] rfl (by decide) (by decide) (by decide)
    (by decide) (by decide)).1 (by decide) (by decide)

/-- C6 counterexample: the claim says a zero-denominator log is rejected
with no Trade produced; in fact the decoder produces a Trade (side BUY,
price "0") for a valid log with `takerAmount = 0`. -/
theorem c6_counterexample :
    (parse_order_filled_log "0xtx" 0 (mkTestLog 0 77 500000 0 0)).map
      (fun tr => (tr.side, tr.price, tr.taker_amount))
      = some ("BUY", "0", 0) := by
  decide

/-!
## Store lemmas and claims C2, C10
-/

/-- Two rows with equal identity keys, as a proposition. -/
def sameTradeKey (a b : TradeRow) : Prop :=
  a.tx_hash = b.tx_hash ∧ a.log_index = b.log_index

/-- No two rows of the table share an identity key (the schema's
`UNIQUE(tx_hash, log_index)` constraint). -/
def NoDupKeys (db : List TradeRow) : Prop :=
  db.Pairwise (fun a b => ¬ sameTradeKey a b)

theorem hasTradeKey_iff (db : List TradeRow) (t : TradeRow) :
    hasTradeKey db t = true ↔ ∃ r ∈ db, sameTradeKey r t := by
  simp [hasTradeKey, sameTradeKey, List.any_eq_true]

theorem hasTradeKey_append (db ext : List TradeRow) (t : TradeRow)
    (h : hasTradeKey db t = true) : hasTradeKey (db ++ ext) t = true := by
  rw [hasTradeKey_iff] at h ⊢
  obtain ⟨r, hr, hk⟩ := h
  exact ⟨r, List.mem_append_left _ hr, hk⟩

theorem insert_trades_count_shift (batch : List TradeRow)
    (db : List TradeRow) (c : ℕ) :
    batch.foldl
      (fun acc t =>
        let step := insertOrIgnoreTrade acc.1 t
        (step.1, acc.2 + step.2)) (db, c)
      = ((insert_trades db batch).1, c + (insert_trades db batch).2) := by
  induction batch generalizing db c with
  | nil => simp [insert_trades]
  | cons t ts ih =>
    simp only [insert_trades, List.foldl_cons]
    rw [ih, ih ((insertOrIgnoreTrade db t).1) (0 + (insertOrIgnoreTrade db t).2)]
    simp only [Prod.mk.injEq, true_and]
    omega

theorem insert_trades_cons (db : List TradeRow) (t : TradeRow)
    (ts : List TradeRow) :
    insert_trades db (t :: ts) =
      ((insert_trades (insertOrIgnoreTrade db t).1 ts).1,
        (insertOrIgnoreTrade db t).2 +
          (insert_trades (insertOrIgnoreTrade db t).1 ts).2) := by
  show List.foldl _ _ _ = _
  rw [List.foldl_cons, insert_trades_count_shift]
  simp only [Prod.mk.injEq, true_and]
  omega

theorem insert_trades_extends (batch db : List TradeRow) :
    ∃ ext, (insert_trades db batch).1 = db ++ ext := by
  induction batch generalizing db with
  | nil => exact ⟨[], by simp [insert_trades]⟩
  | cons t ts ih =>
    rw [insert_trades_cons]
    unfold insertOrIgnoreTrade
    by_cases h : hasTradeKey db t = true
    · simpa [h] using ih db
    · obtain ⟨ext, hext⟩ := ih (db ++ [t])
      exact ⟨[t] ++ ext, by simp [h, hext]⟩

theorem insert_trades_hasKey_of_mem (batch db : List TradeRow)
    (t : TradeRow) (ht : t ∈ batch) :
    hasTradeKey (insert_trades db batch).1 t = true := by
  induction batch generalizing db with
  | nil => cases ht
  | cons u us ih =>
    simp only [insert_trades_cons]
    rcases List.mem_cons.mp ht with rfl | hmem
    · obtain ⟨ext, hext⟩ := insert_trades_extends us (insertOrIgnoreTrade db t).1
      rw [hext]
      apply hasTradeKey_append
      unfold insertOrIgnoreTrade
      by_cases h : hasTradeKey db t = true
      · rw [if_pos h]
        exact h
      · rw [if_neg h]
        rw [show ((db ++ [t], 1) : List TradeRow × ℕ).1 = db ++ [t] from rfl,
          hasTradeKey_iff]
        exact ⟨t, by simp, rfl, rfl⟩
    · exact ih _ hmem

theorem insert_trades_all_dup (batch db : List TradeRow)
    (h : ∀ t ∈ batch, hasTradeKey db t = true) :
    insert_trades db batch = (db, 0) := by
  induction batch with
  | nil => simp [insert_trades]
  | cons t ts ih =>
    rw [insert_trades_cons]
    have ht := h t (List.mem_cons_self t ts)
    unfold insertOrIgnoreTrade
    rw [if_pos ht]
    rw [show ((db, 0) : List TradeRow × ℕ).1 = db from rfl,
      ih (fun u hu => h u (List.mem_cons_of_mem t hu))]
    simp

theorem insertOrIgnore_nodup (db : List TradeRow) (t : TradeRow)
    (h : NoDupKeys db) : NoDupKeys (insertOrIgnoreTrade db t).1 := by
  unfold insertOrIgnoreTrade
  by_cases hk : hasTradeKey db t = true
  · simpa [hk] using h
  · rw [if_neg hk]
    rw [show ((db ++ [t], 1) : List TradeRow × ℕ).1 = db ++ [t] from rfl]
    rw [NoDupKeys, List.pairwise_append]
    refine ⟨h, List.pairwise_singleton _ _, ?_⟩
    intro a ha b hb
    rw [List.mem_singleton] at hb
    subst hb
    intro hab
    exact hk ((hasTradeKey_iff db b).mpr ⟨a, ha, hab⟩)

theorem insert_trades_nodup (batch db : List TradeRow)
    (h : NoDupKeys db) : NoDupKeys (insert_trades db batch).1 := by
  induction batch generalizing db with
  | nil => simpa [insert_trades] using h
  | cons t ts ih =>
    rw [insert_trades_cons]
    exact ih _ (insertOrIgnore_nodup db t h)

theorem insert_trades_length (batch db : List TradeRow) :
    (insert_trades db batch).1.length
      = db.length + (insert_trades db batch).2 := by
  induction batch generalizing db with
  | nil => simp [insert_trades]
  | cons t ts ih =>
    rw [insert_trades_cons]
    unfold insertOrIgnoreTrade
    by_cases h : hasTradeKey db t = true
    · rw [if_pos h]
      rw [show ((db, 0) : List TradeRow × ℕ).1 = db from rfl]
      simpa using ih db
    · rw [if_neg h]
      rw [show ((db ++ [t], 1) : List TradeRow × ℕ).1 = db ++ [t] from rfl]
      have := ih (db ++ [t])
      simp only [List.length_append, List.length_singleton] at this
      simp only [this]
      omega

/-- C2: `insert_trades` is idempotent on `(tx_hash, log_index)`:
re-submitting a batch that was just stored inserts zero rows and leaves
the table unchanged; duplicates are skipped silently and not counted
(the returned count is exactly the number of rows actually added); and
the table never comes to hold two rows sharing an identity key. -/
theorem c2_insert_trades_idempotent (db batch : List TradeRow)
    (h : NoDupKeys db) :
    insert_trades (insert_trades db batch).1 batch
        = ((insert_trades db batch).1, 0)
    ∧ NoDupKeys (insert_trades db batch).1
    ∧ (insert_trades db batch).1.length
        = db.length + (insert_trades db batch).2 := by
  refine ⟨?_, insert_trades_nodup batch db h, insert_trades_length batch db⟩
  exact insert_trades_all_dup batch _
    (fun t ht => insert_trades_hasKey_of_mem batch db t ht)

/-- C2 witness: storing a two-row batch into an empty table and storing
it again — the second call inserts nothing and the count stays 2. -/
theorem c2_witness :
    insert_trades
        (insert_trades [] [c2RowA, c2RowB]).1 [c2RowA, c2RowB]
      = ((insert_trades [] [c2RowA, c2RowB]).1, 0) ∧
    (insert_trades [] [c2RowA, c2RowB]).1.length
      = 0 + (insert_trades [] [c2RowA, c2RowB]).2 :=
  ⟨(c2_insert_trades_idempotent [] [c2RowA, c2RowB] (List.Pairwise.nil)).1,
   (c2_insert_trades_idempotent [] [c2RowA, c2RowB] (List.Pairwise.nil)).2.2⟩

theorem find?_key_map (tbl : List SyncRow) (g : SyncRow → SyncRow)
    (k : String) (hg : ∀ r, (g r).key = r.key) :
    (tbl.map g).find? (fun r => r.key == k)
      = (tbl.find? (fun r => r.key == k)).map g := by
  induction tbl with
  | nil => simp
  | cons r ts ih =>
    simp only [List.map_cons, List.find?_cons, hg]
    cases h : (r.key == k)
    · simpa [h] using ih
    · simp [h]

theorem find?_append_left_none {α : Type} (l1 l2 : List α) (p : α → Bool)
    (h : l1.find? p = none) : (l1 ++ l2).find? p = l2.find? p := by
  induction l1 with
  | nil => simp
  | cons a ts ih =>
    rw [List.find?_cons] at h
    rcases hpa : p a with _ | _
    · rw [List.cons_append, List.find?_cons_of_neg _ (by simp [hpa])]
      exact ih (by rwa [hpa] at h)
    · rw [hpa] at h
      cases h

theorem applySyncUpdate_key (last : ℕ) (tt : Option ℕ) (key now : String)
    (r : SyncRow) : (applySyncUpdate last tt key now r).key = r.key := by
  unfold applySyncUpdate
  by_cases h : (r.key == key) = true
  · cases tt <;> simp [h]
  · simp [h]

theorem find?_append_single_neg {α : Type} (l : List α) (x : α)
    (p : α → Bool) (h : p x = false) :
    (l ++ [x]).find? p = l.find? p := by
  induction l with
  | nil => simp [List.find?, h]
  | cons a ts ih =>
    rw [List.cons_append]
    simp only [List.find?_cons]
    cases hpa : p a
    · exact ih
    · rfl

theorem update_sync_state_last (tbl : List SyncRow) (last : ℕ)
    (tt : Option ℕ) (key now : String) :
    (get_sync_state (update_sync_state tbl last tt key now) key).last_block
      = last := by
  unfold update_sync_state get_sync_state
  by_cases hany : tbl.any (fun r => r.key == key) = true
  · rw [if_pos hany,
      find?_key_map tbl _ key (applySyncUpdate_key last tt key now)]
    obtain ⟨x, hx, hpx⟩ := List.any_eq_true.mp hany
    have hs : (tbl.find? (fun r => r.key == key)).isSome :=
      List.find?_isSome.mpr ⟨x, hx, hpx⟩
    obtain ⟨r, hr⟩ := Option.isSome_iff_exists.mp hs
    rw [hr]
    have hpr := List.find?_some hr
    cases tt <;> simp [applySyncUpdate, hpr]
  · rw [if_neg hany]
    have hall : ∀ x ∈ tbl, ¬ (x.key == key) = true := by
      simpa [List.any_eq_true] using hany
    rw [find?_append_left_none _ _ _ (List.find?_eq_none.mpr hall)]
    simp

theorem update_sync_state_keeps_total (tbl : List SyncRow) (last : ℕ)
    (key now : String) (hany : tbl.any (fun r => r.key == key) = true) :
    get_sync_state (update_sync_state tbl last none key now) key
      = { get_sync_state tbl key with
          last_block := last, updated_at := now } := by
  unfold update_sync_state get_sync_state
  rw [if_pos hany,
    find?_key_map tbl _ key (applySyncUpdate_key last none key now)]
  obtain ⟨x, hx, hpx⟩ := List.any_eq_true.mp hany
  have hs : (tbl.find? (fun r => r.key == key)).isSome :=
    List.find?_isSome.mpr ⟨x, hx, hpx⟩
  obtain ⟨r, hr⟩ := Option.isSome_iff_exists.mp hs
  rw [hr]
  have hpr := List.find?_some hr
  simp [applySyncUpdate, hpr]

theorem update_sync_state_frame (tbl : List SyncRow) (last : ℕ)
    (tt : Option ℕ) (key now k : String) (hk : (k == key) = false) :
    get_sync_state (update_sync_state tbl last tt key now) k
      = get_sync_state tbl k := by
  have hkk : ¬ key = k := by
    intro h
    rw [h] at hk
    simp at hk
  unfold update_sync_state get_sync_state
  by_cases hany : tbl.any (fun r => r.key == key) = true
  · rw [if_pos hany,
      find?_key_map tbl _ k (applySyncUpdate_key last tt key now)]
    cases hfind : tbl.find? (fun r => r.key == k) with
    | none => simp
    | some r =>
      have hpr := List.find?_some hfind
      have hrkey : (r.key == key) = false := by
        have h1 : r.key = k := by simpa using hpr
        rw [h1]
        exact hk
      simp [applySyncUpdate, hrkey]
  · rw [if_neg hany]
    have hx : (({ key := key
                  last_block := last
                  total_trades := tt.getD 0
                  updated_at := now } : SyncRow).key == k) = false := by
      simpa using hkk
    rw [find?_append_single_neg tbl ({ key := key
                                       last_block := last
                                       total_trades := tt.getD 0
                                       updated_at := now } : SyncRow)
      (fun r => r.key == k) hx]

/-- C10: with `total_trades=None` on an existing key,
`update_sync_state` overwrites only `last_block` and `updated_at`
(`total_trades` keeps its stored value), and no `update_sync_state`
call — whatever its `total_trades` argument — changes the state observed
for any other key. -/
theorem c10_update_sync_state_effects (tbl : List SyncRow) (last : ℕ)
    (key now : String) :
    (tbl.any (fun r => r.key == key) = true →
      get_sync_state (update_sync_state tbl last none key now) key
        = { get_sync_state tbl key with
            last_block := last, updated_at := now })
    ∧ (∀ (tt : Option ℕ) (k : String), (k == key) = false →
      get_sync_state (update_sync_state tbl last tt key now) k
        = get_sync_state tbl k) :=
  ⟨fun hany => update_sync_state_keeps_total tbl last key now hany,
   fun tt k hk => update_sync_state_frame tbl last tt key now k hk⟩

/-- C10 witness: on a table holding cursors `indexer` (block 99,
5 trades) and `other`, updating `indexer` to block 120 with
`total_trades=None` keeps its `total_trades` at 5 and leaves `other`
untouched. -/
theorem c10_witness :
    get_sync_state
        (update_sync_state
          [{ key := "indexer", last_block := 99, total_trades := 5,
             updated_at := "t0" },
           { key := "other", last_block := 7, total_trades := 2,
             updated_at := "t0" }] 120 none "indexer" "t1") "indexer"
      = { key := "indexer", last_block := 120, total_trades := 5,
          updated_at := "t1" } ∧
    get_sync_state
        (update_sync_state
          [{ key := "indexer", last_block := 99, total_trades := 5,
             updated_at := "t0" },
           { key := "other", last_block := 7, total_trades := 2,
             updated_at := "t0" }] 120 none "indexer" "t1") "other"
      = { key := "other", last_block := 7, total_trades := 2,
          updated_at := "t0" } := by
  constructor
  · rw [(c10_update_sync_state_effects _ 120 "indexer" "t1").1 (by decide)]
    decide
  · rw [(c10_update_sync_state_effects _ 120 "indexer" "t1").2 none "other"
      (by decide)]
    decide

/-!
## Scanner lemmas and claims C1, C7, C8
-/

theorem catchupAux_stop (fuel : ℕ) (env : Env) (s : IndexerState)
    (total bs tb : ℕ) (h : tb < bs) :
    catchupAux fuel env s total bs tb = (s, total, []) := by
  cases fuel with
  | zero => rfl
  | succ f => simp only [catchupAux, if_neg (by omega : ¬ bs ≤ tb)]

theorem catchupAux_cursor (env : Env) (tb : ℕ) :
    ∀ (fuel bs : ℕ), bs ≤ tb → tb + 1 - bs ≤ fuel →
    ∀ (s : IndexerState) (total : ℕ),
    (get_sync_state (catchupAux fuel env s total bs tb).1.sync
      "indexer").last_block = tb := by
  intro fuel
  induction fuel with
  | zero => intro bs h1 h2; omega
  | succ f ih =>
    intro bs h1 h2 s total
    simp only [catchupAux, if_pos h1]
    by_cases hbe : min (bs + (BATCH_SIZE - 1)) tb + 1 ≤ tb
    · exact ih _ hbe (by simp [BATCH_SIZE] at hbe ⊢; omega) _ _
    · have hto : min (bs + (BATCH_SIZE - 1)) tb = tb := by
        have := Nat.min_le_right (bs + (BATCH_SIZE - 1)) tb
        omega
      rw [catchupAux_stop f env _ _ _ tb (by omega)]
      simp only [hto]
      exact update_sync_state_last _ tb _ "indexer" env.now

theorem catchupAux_ranges_bounds (env : Env) (tb : ℕ) :
    ∀ (fuel bs : ℕ) (s : IndexerState) (total : ℕ),
    ∀ p ∈ (catchupAux fuel env s total bs tb).2.2,
      bs ≤ p.1 ∧ p.1 ≤ p.2 ∧ p.2 + 1 - p.1 ≤ BATCH_SIZE ∧ p.2 ≤ tb := by
  intro fuel
  induction fuel with
  | zero => intro bs s total p hp; simp [catchupAux] at hp
  | succ f ih =>
    intro bs s total p hp
    by_cases h : bs ≤ tb
    · simp only [catchupAux, if_pos h] at hp
      rcases List.mem_cons.mp hp with rfl | hmem
      · refine ⟨le_rfl, ?_, ?_, ?_⟩ <;> simp [BATCH_SIZE] <;> omega
      · obtain ⟨h1, h2, h3, h4⟩ := ih _ _ _ p hmem
        refine ⟨?_, h2, h3, h4⟩
        omega
    · rw [catchupAux_stop _ env _ _ _ _ (by omega)] at hp
      simp at hp

theorem catchupAux_cover (env : Env) (tb : ℕ) :
    ∀ (fuel bs : ℕ), bs ≤ tb → tb + 1 - bs ≤ fuel →
    ∀ (s : IndexerState) (total : ℕ),
    ((catchupAux fuel env s total bs tb).2.2).flatMap
        (fun p => List.range' p.1 (p.2 + 1 - p.1))
      = List.range' bs (tb + 1 - bs) := by
  intro fuel
  induction fuel with
  | zero => intro bs h1 h2; omega
  | succ f ih =>
    intro bs h1 h2 s total
    simp only [catchupAux, if_pos h1, List.flatMap_cons]
    by_cases hbe : min (bs + (BATCH_SIZE - 1)) tb + 1 ≤ tb
    · rw [ih _ hbe (by simp [BATCH_SIZE] at hbe ⊢; omega)]
      have hmin : bs ≤ min (bs + (BATCH_SIZE - 1)) tb := by
        simp [BATCH_SIZE]
        omega
      have harr : bs + (min (bs + (BATCH_SIZE - 1)) tb + 1 - bs)
          = min (bs + (BATCH_SIZE - 1)) tb + 1 := by omega
      calc List.range' bs (min (bs + (BATCH_SIZE - 1)) tb + 1 - bs) ++
            List.range' (min (bs + (BATCH_SIZE - 1)) tb + 1)
              (tb + 1 - (min (bs + (BATCH_SIZE - 1)) tb + 1))
          = List.range' bs (min (bs + (BATCH_SIZE - 1)) tb + 1 - bs) ++
            List.range' (bs + (min (bs + (BATCH_SIZE - 1)) tb + 1 - bs))
              (tb + 1 - (min (bs + (BATCH_SIZE - 1)) tb + 1)) := by
            rw [harr]
        _ = List.range' bs ((tb + 1 - (min (bs + (BATCH_SIZE - 1)) tb + 1)) +
              (min (bs + (BATCH_SIZE - 1)) tb + 1 - bs)) :=
            List.range'_append_1 _ _ _
        _ = List.range' bs (tb + 1 - bs) := by
            congr 1
            omega
    · have hto : min (bs + (BATCH_SIZE - 1)) tb = tb := by
        have := Nat.min_le_right (bs + (BATCH_SIZE - 1)) tb
        omega
      rw [catchupAux_stop f env _ _ _ tb (by omega)]
      simp only [hto, List.flatMap_nil, List.append_nil]

theorem catchupAux_seconds_sorted (env : Env) (tb : ℕ) :
    ∀ (fuel bs : ℕ) (s : IndexerState) (total : ℕ),
    List.Pairwise (· < ·)
      (((catchupAux fuel env s total bs tb).2.2).map (fun p => p.2)) := by
  intro fuel
  induction fuel with
  | zero => intro bs s total; simp [catchupAux]
  | succ f ih =>
    intro bs s total
    by_cases h : bs ≤ tb
    · simp only [catchupAux, if_pos h, List.map_cons]
      rw [List.pairwise_cons]
      refine ⟨?_, ih _ _ _⟩
      intro x hx
      obtain ⟨p, hp, rfl⟩ := List.mem_map.mp hx
      obtain ⟨h1, h2, _, _⟩ := catchupAux_ranges_bounds env tb f _ _ _ p hp
      omega
    · rw [catchupAux_stop _ env _ _ _ _ (by omega)]
      simp

theorem catchupAux_head (fuel : ℕ) (env : Env) (s : IndexerState)
    (total bs tb : ℕ) (h : bs ≤ tb) (hf : 1 ≤ fuel) :
    ((catchupAux fuel env s total bs tb).2.2).head?
      = some (bs, min (bs + (BATCH_SIZE - 1)) tb) := by
  cases fuel with
  | zero => omega
  | succ f => simp [catchupAux, if_pos h]

/-- C1 (amended): in the batch loop of `run_indexer`, the sync cursor is
advanced to each range's upper bound after EVERY batch, successful or
not: a fetch error is swallowed by `fetch_order_filled_logs` (which
returns `[]`), a store failure is swallowed by `insert_trades` (which
rolls back and returns `0`), and in both cases the loop still calls
`update_sync_state(batch_end, ...)`.  Consequently, after a pass over
`[fb, tb]` the persisted cursor equals `tb` for EVERY environment —
including those whose every fetch or store fails — so a failed range is
skipped, not retried. -/
theorem c1_cursor_advances_unconditionally (env : Env) (s : IndexerState)
    (total fb tb : ℕ) (h : fb ≤ tb) :
    (get_sync_state (catchupLoop env s total fb tb).1.sync
      "indexer").last_block = tb :=
  catchupAux_cursor env tb (tb + 1 - fb) fb h le_rfl s total

/-- C1 witness: a 3-block pass over `[5, 7]` against an
always-failing fetch still leaves the cursor at 7. -/
theorem c1_witness :
    (get_sync_state (catchupLoop envFetchErr state99 0 5 7).1.sync
      "indexer").last_block = 7 :=
  c1_cursor_advances_unconditionally envFetchErr state99 0 5 7 (by omega)

/-- C1 counterexample: the claim says a batch-level failure leaves the
cursor unchanged for retry.  In fact: (a) with every fetch raising, a
pass over `[100, 149]` still advances the cursor from 99 to 149; (b)
with a decodable log fetched but the store commit failing (zero rows
durably stored), the cursor still advances to 149 — storage and cursor
disagree, and the range is never retried. -/
theorem c1_counterexample :
    (get_sync_state state99.sync "indexer").last_block = 99 ∧
    (get_sync_state (catchupLoop envFetchErr state99 0 100 149).1.sync
      "indexer").last_block = 149 ∧
    (catchupLoop envStoreErr state99 0 100 149).1.trades = [] ∧
    (get_sync_state (catchupLoop envStoreErr state99 0 100 149).1.sync
      "indexer").last_block = 149 := by
  refine ⟨by decide, by decide, by decide, by decide⟩

/-- C7 (amended): during a batch pass of `run_indexer` over `[fb, tb]`
the processed ranges are non-empty, at most `BATCH_SIZE` (50) blocks
wide, their blocks — in order — are exactly `fb, fb+1, ..., tb`
(contiguous, non-overlapping, covering the interval exactly), and the
`last_block` values written to the sync state (the ranges' upper bounds)
strictly increase across successive batches; the FIRST range, however,
begins exactly at `fb`, and when `from_block` is omitted `fb` IS the
persisted cursor `last_block` (`resolveFromBlock`), so the cursor block
itself is fetched again on resumption. -/
theorem c7_catchup_ranges (env : Env) (s : IndexerState)
    (total fb tb : ℕ) (h : fb ≤ tb) :
    ((catchupLoop env s total fb tb).2.2).flatMap
        (fun p => List.range' p.1 (p.2 + 1 - p.1))
      = List.range' fb (tb + 1 - fb)
    ∧ (∀ p ∈ (catchupLoop env s total fb tb).2.2,
        p.1 ≤ p.2 ∧ p.2 + 1 - p.1 ≤ BATCH_SIZE)
    ∧ List.Pairwise (· < ·)
        (((catchupLoop env s total fb tb).2.2).map (fun p => p.2))
    ∧ ((catchupLoop env s total fb tb).2.2).head?
        = some (fb, min (fb + (BATCH_SIZE - 1)) tb)
    ∧ (∀ tbl : List SyncRow, resolveFromBlock none tbl
        = (get_sync_state tbl "indexer").last_block) := by
  refine ⟨catchupAux_cover env tb _ fb h le_rfl s total,
    fun p hp => ?_, catchupAux_seconds_sorted env tb _ fb s total,
    catchupAux_head _ env s total fb tb h (by omega), fun tbl => rfl⟩
  obtain ⟨_, h2, h3, _⟩ := catchupAux_ranges_bounds env tb _ fb s total p hp
  exact ⟨h2, h3⟩

/-- C7 witness: a pass over `[100, 220]` — its ranges tile
`100..220` exactly, are each at most 50 wide, and their upper bounds
strictly increase starting from the head range `(100, 149)`. -/
theorem c7_witness :
    ((catchupLoop envFetchErr state99 0 100 220).2.2).flatMap
        (fun p => List.range' p.1 (p.2 + 1 - p.1))
      = List.range' 100 121
    ∧ (∀ p ∈ (catchupLoop envFetchErr state99 0 100 220).2.2,
        p.1 ≤ p.2 ∧ p.2 + 1 - p.1 ≤ BATCH_SIZE)
    ∧ List.Pairwise (· < ·)
        (((catchupLoop envFetchErr state99 0 100 220).2.2).map
          (fun p => p.2))
    ∧ ((catchupLoop envFetchErr state99 0 100 220).2.2).head?
        = some (100, min (100 + (BATCH_SIZE - 1)) 220) := by
  obtain ⟨h1, h2, h3, h4, _⟩ :=
    c7_catchup_ranges envFetchErr state99 0 100 220 (by omega)
  exact ⟨h1, h2, h3, h4⟩

/-- C7 counterexample: the claim says the scanner never re-requests a
range already reflected in the persisted cursor unless `from_block` is
caller-supplied.  With the cursor at block 100 and `from_block` omitted,
the resolved start is 100 itself and the first (only) processed range is
`(100, 120)` — block 100, already reflected in the cursor, is fetched
again. -/
theorem c7_counterexample :
    (get_sync_state state100.sync "indexer").last_block = 100 ∧
    resolveFromBlock none state100.sync = 100 ∧
    (catchupLoop envFetchErr state100 0
        (resolveFromBlock none state100.sync) 120).2.2 = [(100, 120)] := by
  refine ⟨by decide, by decide, by decide⟩

/-- C8 (amended): one iteration of the continuous (LIVE) loop issues —
whenever the chain height advanced — exactly ONE fetch spanning the
whole gap `[last+1, latest]`, no matter how far the height ran ahead
(it is NOT split into `BATCH_SIZE`-bounded batches), then moves the
cursor to `latest`; when the height has not advanced, no fetch is issued
and nothing changes (the loop just sleeps until the next poll). -/
theorem c8_live_single_fetch (env : Env) (s : IndexerState)
    (total last latest : ℕ) :
    (last < latest →
      (liveIteration env s total last latest).2.2.2 = [(last + 1, latest)]
      ∧ (liveIteration env s total last latest).2.2.1 = latest
      ∧ (get_sync_state (liveIteration env s total last latest).1.sync
          "indexer").last_block = latest)
    ∧ (latest ≤ last →
      liveIteration env s total last latest = (s, total, last, [])) := by
  constructor
  · intro h
    simp only [liveIteration, if_pos h, true_and, and_true]
    exact update_sync_state_last _ latest _ "indexer" env.now
  · intro h
    simp only [liveIteration, if_neg (by omega : ¬ last < latest)]

/-- C8 witness: height advanced from 100 to 103 — one fetch over
`[101, 103]` and the cursor moves to 103; height stuck at 100 — no
fetch. -/
theorem c8_witness :
    ((liveIteration envFetchErr state99 0 100 103).2.2.2
        = [(101, 103)]
      ∧ (liveIteration envFetchErr state99 0 100 103).2.2.1 = 103
      ∧ (get_sync_state (liveIteration envFetchErr state99 0 100 103).1.sync
          "indexer").last_block = 103)
    ∧ liveIteration envFetchErr state99 0 100 100
        = (state99, 0, 100, []) :=
  ⟨(c8_live_single_fetch envFetchErr state99 0 100 103).1 (by omega),
   (c8_live_single_fetch envFetchErr state99 0 100 100).2 (by omega)⟩

/-- C8 counterexample: the claim says a gap wider than the batch width
(50) is processed as successive bounded batches.  With the height 100
blocks ahead, the LIVE iteration issues a single 100-block fetch
`(101, 200)` — one unbounded call over the whole gap. -/
theorem c8_counterexample :
    (liveIteration envFetchErr state99 0 100 200).2.2.2 = [(101, 200)]
    ∧ BATCH_SIZE < 200 + 1 - 101 := by
  refine ⟨by decide, by decide⟩

/-!
## Decimal model lemmas and claim C3
-/

theorem roundHalfEvenZ_intCast (z : ℤ) : roundHalfEvenZ (z : ℚ) = z := by
  unfold roundHalfEvenZ
  simp only [Int.floor_intCast, sub_self]
  norm_num

theorem decExp_spec (q : ℚ) (hq : 0 < q) :
    (10 : ℚ) ^ (decExp q - 1) ≤ q ∧ q < (10 : ℚ) ^ (decExp q) := by
  have hnum : 0 < q.num := Rat.num_pos.mpr hq
  have ha1 : 1 ≤ q.num.natAbs := by
    have := Int.natAbs_pos.mpr (ne_of_gt hnum)
    omega
  have hb1 : 1 ≤ q.den := q.den_pos
  obtain ⟨hla1, hla2⟩ := log10_spec q.num.natAbs ha1
  obtain ⟨hlb1, hlb2⟩ := log10_spec q.den hb1
  have hbq : (0 : ℚ) < (q.den : ℚ) := by exact_mod_cast hb1
  have hnumcast : ((q.num.natAbs : ℚ)) = ((q.num : ℤ) : ℚ) := by
    rw [Int.cast_natAbs, abs_of_nonneg (le_of_lt hnum)]
  have hqeq : q = (q.num.natAbs : ℚ) / (q.den : ℚ) := by
    rw [hnumcast, Rat.num_div_den]
  have hten0 : (10 : ℚ) ≠ 0 := by norm_num
  set la := log10 q.num.natAbs with hla
  set lb := log10 q.den with hlb
  -- strict lower bound 10 ^ (la - lb - 1) < q
  have hlow : (10 : ℚ) ^ ((la : ℤ) - (lb : ℤ) - 1) < q := by
    rw [hqeq, lt_div_iff hbq]
    calc (10 : ℚ) ^ ((la : ℤ) - (lb : ℤ) - 1) * (q.den : ℚ)
        < (10 : ℚ) ^ ((la : ℤ) - (lb : ℤ) - 1) * (10 : ℚ) ^ ((lb : ℤ) + 1) := by
          apply mul_lt_mul_of_pos_left ?_ (by positivity)
          rw [show ((lb : ℤ) + 1) = ((lb + 1 : ℕ) : ℤ) by push_cast; ring,
            zpow_natCast]
          exact_mod_cast hlb2
      _ = (10 : ℚ) ^ (la : ℤ) := by
          rw [← zpow_add₀ hten0]
          congr 1
          omega
      _ ≤ (q.num.natAbs : ℚ) := by
          rw [zpow_natCast]
          exact_mod_cast hla1
  -- strict upper bound q < 10 ^ (la - lb + 1)
  have hupp : q < (10 : ℚ) ^ ((la : ℤ) - (lb : ℤ) + 1) := by
    rw [hqeq, div_lt_iff hbq]
    calc (q.num.natAbs : ℚ)
        < (10 : ℚ) ^ ((la : ℤ) + 1) := by
          rw [show ((la : ℤ) + 1) = ((la + 1 : ℕ) : ℤ) by push_cast; ring,
            zpow_natCast]
          exact_mod_cast hla2
      _ = (10 : ℚ) ^ ((la : ℤ) - (lb : ℤ) + 1) * (10 : ℚ) ^ (lb : ℤ) := by
          rw [← zpow_add₀ hten0]
          congr 1
          omega
      _ ≤ (10 : ℚ) ^ ((la : ℤ) - (lb : ℤ) + 1) * (q.den : ℚ) := by
          apply mul_le_mul_of_nonneg_left ?_ (by positivity)
          rw [zpow_natCast]
          exact_mod_cast hlb1
  simp only [decExp]
  rw [← hla, ← hlb]
  by_cases hc : q < (10 : ℚ) ^ ((la : ℤ) - (lb : ℤ))
  · rw [if_pos hc]
    exact ⟨le_of_lt (by simpa using hlow), hc⟩
  · rw [if_neg hc]
    refine ⟨?_, hupp⟩
    have := not_lt.mp hc
    simpa using this

theorem roundHalfEvenZ_natCast (n : ℕ) :
    roundHalfEvenZ (n : ℚ) = (n : ℤ) := by
  rw [show ((n : ℚ)) = (((n : ℤ)) : ℚ) by push_cast; ring]
  exact roundHalfEvenZ_intCast n

/-- A `Decimal` division result whose 28-digit scaling is an integer is
returned exactly. -/
theorem roundSigPos_int (q : ℚ) (N : ℕ)
    (hN : q * (10 : ℚ) ^ ((28 : ℤ) - decExp q) = (N : ℚ)) :
    roundSigPos q = q := by
  simp only [roundSigPos]
  rw [hN, roundHalfEvenZ_natCast]
  have hsc : ((10 : ℚ) ^ ((28 : ℤ) - decExp q)) ≠ 0 := by positivity
  rw [show (((N : ℤ)) : ℚ) = (N : ℚ) by push_cast; ring, ← hN]
  field_simp

/-- Any value `c / 10^6` with `c < 10^28` is representable in 28
significant digits, hence a fixed point of the context rounding. -/
theorem roundSig28_exact (c : ℕ) (hc : c < 10 ^ 28) :
    roundSig28 ((c : ℚ) / 10 ^ 6) = (c : ℚ) / 10 ^ 6 := by
  rcases Nat.eq_zero_or_pos c with rfl | hpos
  · simp [roundSig28]
  · have hq : (0 : ℚ) < (c : ℚ) / 10 ^ 6 := by positivity
    simp only [roundSig28, if_neg (ne_of_gt hq),
      if_neg (not_lt.mpr (le_of_lt hq))]
    set e := decExp ((c : ℚ) / 10 ^ 6) with he
    obtain ⟨hl, hh⟩ := decExp_spec _ hq
    have hq22 : (c : ℚ) / 10 ^ 6 < (10 : ℚ) ^ (22 : ℤ) := by
      rw [div_lt_iff (by positivity)]
      calc (c : ℚ) < ((10 ^ 28 : ℕ) : ℚ) := by exact_mod_cast hc
        _ = (10 : ℚ) ^ (22 : ℤ) * 10 ^ 6 := by norm_num
    have he22 : e ≤ 22 := by
      have h1 := lt_of_le_of_lt hl hq22
      have h2 := (zpow_lt_zpow_iff_right₀
        (by norm_num : (1 : ℚ) < 10)).mp h1
      omega
    apply roundSigPos_int _ (c * 10 ^ ((22 - e).toNat))
    rw [← he]
    have hsplit : (10 : ℚ) ^ ((28 : ℤ) - e)
        = (10 : ℚ) ^ ((22 : ℤ) - e) * (10 : ℚ) ^ (6 : ℤ) := by
      rw [← zpow_add₀ (by norm_num : (10 : ℚ) ≠ 0)]
      congr 1
      omega
    have htoNat : (10 : ℚ) ^ ((22 : ℤ) - e)
        = ((10 ^ ((22 - e).toNat) : ℕ) : ℚ) := by
      push_cast
      rw [← zpow_natCast]
      congr 1
      omega
    rw [hsplit, htoNat]
    push_cast
    have h6 : ((10 : ℚ) ^ (6 : ℤ)) = (10 : ℚ) ^ (6 : ℕ) := by
      norm_num
    rw [h6]
    field_simp
    ring

/-- When the token amount divides the collateral amount and the
collateral amount is within the context's 28-digit capacity, the staged
`Decimal` computation of `_calculate_price` loses nothing: it returns
exactly the quotient written with six decimals, which is also the spec's
"exact value rounded to 6 decimal places". -/
theorem calculate_price_exact (m t : ℕ) (ht : 0 < t) (hdvd : t ∣ m)
    (hm : m < 10 ^ 28) :
    calculate_price m t = decString6 (m / t)
    ∧ calculate_price m t = specRound6 ((m : ℚ) / 10 ^ 6 / (t : ℚ)) := by
  obtain ⟨k, rfl⟩ := hdvd
  have hk : k < 10 ^ 28 := lt_of_le_of_lt (Nat.le_mul_of_pos_left k ht) hm
  have htQ : ((t : ℚ)) ≠ 0 := by exact_mod_cast Nat.pos_iff_ne_zero.mp ht
  have hstage2 : ((t * k : ℕ) : ℚ) / 10 ^ 6 / (t : ℚ) = (k : ℚ) / 10 ^ 6 := by
    push_cast
    field_simp
    ring
  have hz : roundHalfEvenZ ((k : ℚ) / 10 ^ 6 * 10 ^ 6) = (k : ℤ) := by
    rw [div_mul_cancel₀ _ (by norm_num : ((10 : ℚ) ^ 6) ≠ 0)]
    exact roundHalfEvenZ_natCast k
  have hmain : calculate_price (t * k) t = decString6 k := by
    simp only [calculate_price, if_neg (by omega : ¬ t = 0)]
    rw [roundSig28_exact (t * k) hm, hstage2, roundSig28_exact k hk]
    simp only [quantize6, hz]
    rw [if_pos (by simpa using hk)]
    simp only [decString6Int, if_neg (by omega : ¬ (k : ℤ) < 0)]
    simp [Int.natAbs_ofNat]
  constructor
  · rw [hmain, Nat.mul_div_cancel_left k ht]
  · rw [hmain]
    unfold specRound6
    rw [hstage2, hz]
    simp only [decString6Int, if_neg (by omega : ¬ (k : ℤ) < 0)]
    simp [Int.natAbs_ofNat]

/-- C3 (amended): for every valid `OrderFilled` log, if
`makerAssetId == 0` the Trade is a BUY on `takerAssetId` and its price
is `_calculate_price(makerAmount, takerAmount)` — the staged `Decimal`
division under the default 28-significant-digit half-even context; that
staged result equals the spec's exact decimal value
`(makerAmount/10^6)/takerAmount` rounded to 6 decimal places whenever
`takerAmount` is positive, divides `makerAmount`, and
`makerAmount < 10^28` (within the context's capacity); symmetrically
for `takerAssetId == 0` (SELL on `makerAssetId`, price from
`(takerAmount/10^6)/makerAmount`). -/
theorem c3_side_token_price (txh : String) (li : ℕ) (L : RawLog)
    (t0 t1 t2 t3 : List Nibble) (rest : List (List Nibble))
    (htop : L.topics = t0 :: t1 :: t2 :: t3 :: rest)
    (haddr : L.address.length = 40)
    (hsig : t0.take 8 = ORDER_FILLED_SIG_HEAD)
    (h2 : 40 ≤ t2.length) (h3 : 40 ≤ t3.length)
    (hdata : 320 ≤ L.data.length) :
    (nibblesToNat (L.data.take 64) = 0 →
      ∃ tr, parse_order_filled_log txh li L = some tr
        ∧ tr.side = "BUY"
        ∧ tr.token_id = nibblesToNat ((L.data.drop 64).take 64)
        ∧ (0 < nibblesToNat ((L.data.drop 192).take 64) →
          nibblesToNat ((L.data.drop 192).take 64)
            ∣ nibblesToNat ((L.data.drop 128).take 64) →
          nibblesToNat ((L.data.drop 128).take 64) < 10 ^ 28 →
          tr.price = specRound6
            ((nibblesToNat ((L.data.drop 128).take 64) : ℚ) / 10 ^ 6
              / (nibblesToNat ((L.data.drop 192).take 64) : ℚ))))
    ∧ (nibblesToNat (L.data.take 64) ≠ 0 →
      nibblesToNat ((L.data.drop 64).take 64) = 0 →
      ∃ tr, parse_order_filled_log txh li L = some tr
        ∧ tr.side = "SELL"
        ∧ tr.token_id = nibblesToNat (L.data.take 64)
        ∧ (0 < nibblesToNat ((L.data.drop 128).take 64) →
          nibblesToNat ((L.data.drop 128).take 64)
            ∣ nibblesToNat ((L.data.drop 192).take 64) →
          nibblesToNat ((L.data.drop 192).take 64) < 10 ^ 28 →
          tr.price = specRound6
            ((nibblesToNat ((L.data.drop 192).take 64) : ℚ) / 10 ^ 6
              / (nibblesToNat ((L.data.drop 128).take 64) : ℚ)))) := by
  rw [parse_valid txh li L t0 t1 t2 t3 rest htop haddr hsig h2 h3 hdata]
  constructor
  · intro hm
    rw [if_pos hm]
    refine ⟨_, rfl, rfl, rfl, fun hpos hdvd hcap => ?_⟩
    exact (calculate_price_exact _ _ hpos hdvd hcap).2
  · intro hm ht
    rw [if_neg hm, if_pos ht]
    refine ⟨_, rfl, rfl, rfl, fun hpos hdvd hcap => ?_⟩
    exact (calculate_price_exact _ _ hpos hdvd hcap).2

/-- C3 witness: the spec's own example — `makerAssetId = 0`,
`makerAmount = 500000`, `takerAmount = 1` — decodes to a BUY on token 77
with price string "0.500000". -/
theorem c3_witness :
    ∃ tr, parse_order_filled_log "0xw3" 0 (mkTestLog 0 77 500000 1 0)
        = some tr ∧ tr.side = "BUY" ∧ tr.token_id = 77
        ∧ tr.price = "0.500000" := by
  obtain ⟨tr, hsome, hside, htok, hprice⟩ :=
    (c3_side_token_price "0xw3" 0 (mkTestLog 0 77 500000 1 0)
      ORDER_FILLED_TOPIC (natToNibblesBE 64 1) (natToNibblesBE 64 2)
      (natToNibblesBE 64 3) [] rfl (by decide) (by decide) (by decide)
      (by decide) (by decide)).1 (by decide)
  refine ⟨tr, hsome, hside, ?_, ?_⟩
  · rw [htok]
    decide
  · rw [hprice (by decide) (by decide) (by decide)]
    with_unfolding_all rfl

/-- C3 counterexample: the claim demands price = the exact decimal value
rounded to 6 places for EVERY valid log.  At `makerAmount = 10^28`,
`takerAmount = 1` the exact rounded value is
"10000000000000000000000.000000", but `round(price, 6)` overflows the
default `Decimal` context's 28-digit precision (`InvalidOperation`), the
decoder's handler swallows it, and the stored price is "0". -/
theorem c3_counterexample :
    (parse_order_filled_log "0xtx" 0 (mkTestLog 0 77 (10 ^ 28) 1 0)).map
        (fun tr => (tr.side, tr.price)) = some ("BUY", "0")
    ∧ specRound6 (((10 ^ 28 : ℕ) : ℚ) / 10 ^ 6 / 1)
        = "10000000000000000000000.000000"
    ∧ ("0" : String) ≠ "10000000000000000000000.000000" := by
  refine ⟨by with_unfolding_all rfl, by with_unfolding_all rfl, by decide⟩
